import Mathlib

/-!
Verification of the powder-map repository: a shallow embedding of the
computational core (geodesy, aspect derivation, wind aggregation, powder
scoring, overlay color ramp, terrain cache) together with theorems settling
the specification's testable properties.

JavaScript IEEE numbers are modelled as real numbers (`ℝ`); the `NaN`
sentinel used for undefined aspect values is modelled as `Option ℝ` with
`none` standing for `NaN`, matching the design note that the sentinel must
stay distinct from every numeric bearing.  The color ramp works on exact
rationals.  The JavaScript `%` operator (truncating remainder) is modelled
by `jsMod` below.
-/

namespace PowderMap

open Real

/-- Truncation toward zero, the rounding used by the JavaScript `%` operator. -/
noncomputable def realTrunc (x : ℝ) : ℝ :=
  if 0 ≤ x then (⌊x⌋ : ℝ) else (⌈x⌉ : ℝ)

/-- JavaScript remainder `a % b`: same sign as the dividend. -/
noncomputable def jsMod (a b : ℝ) : ℝ :=
  a - b * realTrunc (a / b)

/-- The normalization idiom `((x % 360) + 360) % 360` used throughout the source. -/
noncomputable def norm360 (x : ℝ) : ℝ :=
  jsMod (jsMod x 360 + 360) 360

/-- Model of `clamp` from src/js/utils.js: `Math.max(min, Math.min(max, val))`. -/
noncomputable def clamp (val lo hi : ℝ) : ℝ :=
  max lo (min hi val)

/-- Model of `angleDifference` from src/js/utils.js: shortest angular distance between
two bearings, in `[0, 180]`. -/
noncomputable def angleDifference (a b : ℝ) : ℝ :=
  let diff := |norm360 (a - b)|
  if diff > 180 then 360 - diff else diff

theorem realTrunc_isInt (x : ℝ) : ∃ k : ℤ, realTrunc x = (k : ℝ) := by
  unfold realTrunc
  split
  · exact ⟨⌊x⌋, rfl⟩
  · exact ⟨⌈x⌉, rfl⟩

theorem jsMod_eq_floor {a b : ℝ} (ha : 0 ≤ a) (hb : 0 < b) :
    jsMod a b = a - b * ⌊a / b⌋ := by
  unfold jsMod realTrunc
  rw [if_pos (div_nonneg ha hb.le)]

theorem jsMod_eq_ceil {a b : ℝ} (ha : a < 0) (hb : 0 < b) :
    jsMod a b = a - b * ⌈a / b⌉ := by
  unfold jsMod realTrunc
  rw [if_neg]
  push_neg
  exact div_neg_of_neg_of_pos ha hb

theorem jsMod_nonneg {a b : ℝ} (ha : 0 ≤ a) (hb : 0 < b) : 0 ≤ jsMod a b := by
  rw [jsMod_eq_floor ha hb]
  have h := Int.floor_le (a / b)
  have : b * ⌊a / b⌋ ≤ b * (a / b) := by
    exact mul_le_mul_of_nonneg_left h hb.le
  rw [mul_div_cancel₀ a hb.ne'] at this
  linarith

theorem jsMod_lt {a b : ℝ} (ha : 0 ≤ a) (hb : 0 < b) : jsMod a b < b := by
  rw [jsMod_eq_floor ha hb]
  have h := Int.lt_floor_add_one (a / b)
  have : b * (a / b) < b * (⌊a / b⌋ + 1) := mul_lt_mul_of_pos_left h hb
  rw [mul_div_cancel₀ a hb.ne'] at this
  nlinarith

theorem jsMod_nonpos {a b : ℝ} (ha : a < 0) (hb : 0 < b) : jsMod a b ≤ 0 := by
  rw [jsMod_eq_ceil ha hb]
  have h := Int.le_ceil (a / b)
  have : b * (a / b) ≤ b * ⌈a / b⌉ := mul_le_mul_of_nonneg_left h hb.le
  rw [mul_div_cancel₀ a hb.ne'] at this
  linarith

theorem neg_lt_jsMod {a b : ℝ} (ha : a < 0) (hb : 0 < b) : -b < jsMod a b := by
  rw [jsMod_eq_ceil ha hb]
  have h := Int.ceil_lt_add_one (a / b)
  have : b * (⌈a / b⌉ : ℝ) < b * (a / b + 1) := mul_lt_mul_of_pos_left h hb
  rw [mul_add, mul_div_cancel₀ a hb.ne', mul_one] at this
  linarith

theorem jsMod_sub_int (a b : ℝ) : ∃ k : ℤ, jsMod a b = a - b * k := by
  obtain ⟨k, hk⟩ := realTrunc_isInt (a / b)
  exact ⟨k, by rw [jsMod, hk]⟩

theorem norm360_nonneg (x : ℝ) : 0 ≤ norm360 x := by
  unfold norm360
  rcases le_or_lt 0 x with hx | hx
  · have h1 : 0 ≤ jsMod x 360 := jsMod_nonneg hx (by norm_num)
    exact jsMod_nonneg (by linarith) (by norm_num)
  · have h1 : -360 < jsMod x 360 := neg_lt_jsMod hx (by norm_num)
    exact jsMod_nonneg (by linarith) (by norm_num)

theorem norm360_lt (x : ℝ) : norm360 x < 360 := by
  unfold norm360
  rcases le_or_lt 0 x with hx | hx
  · have h1 : 0 ≤ jsMod x 360 := jsMod_nonneg hx (by norm_num)
    exact jsMod_lt (by linarith) (by norm_num)
  · have h1 : -360 < jsMod x 360 := neg_lt_jsMod hx (by norm_num)
    exact jsMod_lt (by linarith) (by norm_num)

theorem norm360_sub_int (x : ℝ) : ∃ k : ℤ, norm360 x = x - 360 * k := by
  obtain ⟨k1, hk1⟩ := jsMod_sub_int x 360
  obtain ⟨k2, hk2⟩ := jsMod_sub_int (jsMod x 360 + 360) 360
  refine ⟨k1 + k2 - 1, ?_⟩
  unfold norm360
  rw [hk2, hk1]
  push_cast
  ring

/-- If `x` is `y` plus an integer multiple of 360 with `y ∈ [0, 360)`, then
normalization returns exactly `y`. -/
theorem norm360_eq_of_rep {x y : ℝ} (k : ℤ) (hx : x = y + 360 * k)
    (hy0 : 0 ≤ y) (hy1 : y < 360) : norm360 x = y := by
  obtain ⟨m, hm⟩ := norm360_sub_int x
  have h0 := norm360_nonneg x
  have h1 := norm360_lt x
  have hmk : norm360 x = y + 360 * ((k : ℝ) - m) := by rw [hm, hx]; ring
  have hkm : ((k - m : ℤ) : ℝ) = (k : ℝ) - m := by push_cast; ring
  have hz : (0 : ℝ) ≤ 360 * ((k : ℝ) - m) + y := by
    rw [hmk] at h0; linarith
  have hz' : 360 * ((k : ℝ) - m) + y < 360 := by
    rw [hmk] at h1; linarith
  have : (k - m : ℤ) = 0 := by
    by_contra hne
    rcases lt_or_gt_of_ne hne with hlt | hgt
    · have : (k - m : ℤ) ≤ -1 := by omega
      have : ((k - m : ℤ) : ℝ) ≤ -1 := by exact_mod_cast this
      rw [hkm] at this; nlinarith
    · have : (1 : ℤ) ≤ (k - m : ℤ) := by omega
      have : (1 : ℝ) ≤ ((k - m : ℤ) : ℝ) := by exact_mod_cast this
      rw [hkm] at this; nlinarith
  have : (k : ℝ) - m = 0 := by rw [← hkm]; exact_mod_cast this
  rw [hmk, this]; ring

theorem norm360_self {x : ℝ} (h0 : 0 ≤ x) (h1 : x < 360) : norm360 x = x :=
  norm360_eq_of_rep 0 (by push_cast; ring) h0 h1

theorem norm360_zero : norm360 0 = 0 := norm360_self le_rfl (by norm_num)

theorem angleDifference_self (a : ℝ) : angleDifference a a = 0 := by
  unfold angleDifference
  rw [sub_self, norm360_zero, abs_zero, if_neg (by norm_num)]

/-- The angle difference between `jsMod (L + 180) 360` (the bearing directly
opposite `L`) and `L` is exactly 180. -/
theorem angleDifference_opposite (L : ℝ) :
    angleDifference (jsMod (L + 180) 360) L = 180 := by
  obtain ⟨k, hk⟩ := jsMod_sub_int (L + 180) 360
  have hrep : jsMod (L + 180) 360 - L = 180 + 360 * (-k : ℤ) := by
    rw [hk]; push_cast; ring
  unfold angleDifference
  rw [norm360_eq_of_rep (-k) hrep (by norm_num) (by norm_num)]
  rw [abs_of_nonneg (by norm_num : (0:ℝ) ≤ 180), if_neg (by norm_num)]

theorem clamp_le {val lo hi : ℝ} (h : lo ≤ hi) : clamp val lo hi ≤ hi := by
  unfold clamp
  exact max_le h (min_le_left _ _)

theorem le_clamp (val lo hi : ℝ) : lo ≤ clamp val lo hi := le_max_left _ _

/-! ## Powder scoring engine (src/js/powder.js) -/

/-- Per-pixel body of the scoring loop in `computePowderScores`
(src/js/powder.js lines 35–48).  `none` models an aspect of `NaN`; reading
past the end of the aspect grid also behaves like `NaN` in the source
(`isNaN(undefined)` is true), hence the catch-all branch. -/
noncomputable def pixelScore (snowFactor leeward windTransport : ℝ)
    (aspect : Option (Option ℝ)) : ℝ :=
  match aspect with
  | some (some a) =>
    let diff := angleDifference a leeward
    let leewardScore := (Real.cos (diff * Real.pi / 180) + 1) / 2
    snowFactor * (0.5 + (leewardScore - 0.5) * windTransport)
  | _ => snowFactor * 0.5

/-- Model of `computePowderScores` from src/js/powder.js.  Scores are the exact real
values of the per-pixel formula; the zero-snow early return yields the
freshly zero-initialised `Float32Array`. -/
noncomputable def computePowderScores (aspectGrid : List (Option ℝ))
    (windDir totalSnowfall totalPrecip avgWindSpeed : ℝ)
    (width height : ℕ) : List ℝ :=
  let snowFactor := clamp (totalSnowfall / 6.0) 0 1
  if snowFactor = 0 then List.replicate (width * height) 0
  else
    let leeward := jsMod (windDir + 180) 360
    let windTransport := clamp (avgWindSpeed / 30) 0.2 1.0
    (List.range (width * height)).map fun i =>
      pixelScore snowFactor leeward windTransport aspectGrid[i]?

theorem computePowderScores_length (g : List (Option ℝ)) (wd s p ws : ℝ)
    (w h : ℕ) : (computePowderScores g wd s p ws w h).length = w * h := by
  simp only [computePowderScores]
  split <;> simp

theorem computePowderScores_getElem (g : List (Option ℝ)) (wd s p ws : ℝ)
    (w h i : ℕ) (hi : i < w * h) (hs : clamp (s / 6.0) 0 1 ≠ 0) :
    (computePowderScores g wd s p ws w h)[i]? =
      some (pixelScore (clamp (s / 6.0) 0 1) (jsMod (wd + 180) 360)
        (clamp (ws / 30) 0.2 1.0) g[i]?) := by
  unfold computePowderScores
  rw [if_neg hs]
  simp [List.getElem?_map, List.getElem?_range hi]

/-- Bounds on the per-pixel score given the factor bounds established from
the clamps. -/
theorem pixelScore_bounds {sf lw wt : ℝ} (hsf0 : 0 ≤ sf) (hsf1 : sf ≤ 1)
    (hwt0 : 0 ≤ wt) (hwt1 : wt ≤ 1) (a : Option (Option ℝ)) :
    0 ≤ pixelScore sf lw wt a ∧ pixelScore sf lw wt a ≤ 1 := by
  unfold pixelScore
  match a with
  | none => constructor <;> nlinarith
  | some none => constructor <;> nlinarith
  | some (some x) =>
    simp only
    have hc0 := Real.neg_one_le_cos (angleDifference x lw * Real.pi / 180)
    have hc1 := Real.cos_le_one (angleDifference x lw * Real.pi / 180)
    have hl := mul_le_mul_of_nonneg_right hc0 hwt0
    have hu := mul_le_mul_of_nonneg_right hc1 hwt0
    have hbody0 : (0:ℝ) ≤ 0.5 +
        ((Real.cos (angleDifference x lw * Real.pi / 180) + 1) / 2 - 0.5) * wt := by
      nlinarith
    have hbody1 : 0.5 +
        ((Real.cos (angleDifference x lw * Real.pi / 180) + 1) / 2 - 0.5) * wt ≤ 1 := by
      nlinarith
    exact ⟨mul_nonneg hsf0 hbody0, mul_le_one₀ hsf1 hbody0 hbody1⟩

/-- C1: every score returned by `computePowderScores` lies in `[0, 1]`; with a
zero snowfall total every score is exactly `0`; and every pixel whose aspect is
the `NaN` sentinel scores exactly `snowFactor * 0.5`. -/
theorem powderScores_bounds_zero_nan (g : List (Option ℝ))
    (wd snow p ws : ℝ) (w h : ℕ) :
    (∀ s ∈ computePowderScores g wd snow p ws w h, 0 ≤ s ∧ s ≤ 1) ∧
    (snow = 0 → ∀ s ∈ computePowderScores g wd snow p ws w h, s = 0) ∧
    (∀ i, i < w * h → g[i]? = some none →
      (computePowderScores g wd snow p ws w h)[i]? =
        some (clamp (snow / 6.0) 0 1 * 0.5)) := by
  have hsf0 : (0:ℝ) ≤ clamp (snow / 6.0) 0 1 := le_clamp _ _ _
  have hsf1 : clamp (snow / 6.0) 0 1 ≤ 1 := clamp_le (by norm_num)
  have hwt0 : (0:ℝ) ≤ clamp (ws / 30) 0.2 1.0 := by
    have := le_clamp (ws / 30) 0.2 1.0
    norm_num at this ⊢
    linarith
  have hwt1 : clamp (ws / 30) 0.2 1.0 ≤ 1 :=
    le_trans (clamp_le (by norm_num)) (by norm_num)
  refine ⟨?_, ?_, ?_⟩
  · intro s hs
    by_cases hz : clamp (snow / 6.0) 0 1 = 0
    · unfold computePowderScores at hs
      rw [if_pos hz] at hs
      have := List.eq_of_mem_replicate hs
      subst this
      norm_num
    · unfold computePowderScores at hs
      rw [if_neg hz] at hs
      simp only [List.mem_map, List.mem_range] at hs
      obtain ⟨i, _, hsi⟩ := hs
      rw [← hsi]
      exact pixelScore_bounds hsf0 hsf1 hwt0 hwt1 _
  · intro hsnow s hs
    have hz : clamp (snow / 6.0) 0 1 = 0 := by
      rw [hsnow]
      unfold clamp
      norm_num
    unfold computePowderScores at hs
    rw [if_pos hz] at hs
    exact List.eq_of_mem_replicate hs
  · intro i hi hnan
    by_cases hz : clamp (snow / 6.0) 0 1 = 0
    · unfold computePowderScores
      rw [if_pos hz, hz]
      simp [List.getElem?_replicate_of_lt hi]
    · rw [computePowderScores_getElem g wd snow p ws w h i hi hz, hnan]
      rfl

/-- C1 witness: a one-pixel grid whose aspect is the sentinel, snowfall 3 in. -/
theorem powderScores_bounds_zero_nan_witness :
    (0 < 1 * 1 ∧ ([(none : Option ℝ)])[0]? = some none) ∧
    (computePowderScores [none] 0 3 0 0 1 1)[0]? =
      some (clamp (3 / 6.0) 0 1 * 0.5) :=
  ⟨⟨by norm_num, rfl⟩,
   (powderScores_bounds_zero_nan [none] 0 3 0 0 1 1).2.2 0 (by norm_num) rfl⟩

/-- Any pixel's score lies between the scores of a windward-facing and a
leeward-facing pixel. -/
theorem pixelScore_between {sf lw wt : ℝ} (hsf0 : 0 ≤ sf) (hwt0 : 0 ≤ wt)
    (a : Option (Option ℝ)) :
    sf * (0.5 - 0.5 * wt) ≤ pixelScore sf lw wt a ∧
    pixelScore sf lw wt a ≤ sf * (0.5 + 0.5 * wt) := by
  unfold pixelScore
  have hprod := mul_nonneg hsf0 hwt0
  match a with
  | none => constructor <;> nlinarith
  | some none => constructor <;> nlinarith
  | some (some x) =>
    simp only
    have hc0 := Real.neg_one_le_cos (angleDifference x lw * Real.pi / 180)
    have hc1 := Real.cos_le_one (angleDifference x lw * Real.pi / 180)
    constructor <;>
      nlinarith [mul_le_mul_of_nonneg_left hc0 hprod,
        mul_le_mul_of_nonneg_left hc1 hprod]

/-- A pixel whose aspect equals the leeward bearing gets the maximal
leeward score contribution. -/
theorem pixelScore_at_leeward (sf wt L : ℝ) :
    pixelScore sf L wt (some (some L)) = sf * (0.5 + 0.5 * wt) := by
  simp only [pixelScore]
  rw [angleDifference_self]
  rw [show (0:ℝ) * Real.pi / 180 = 0 by ring, Real.cos_zero]
  norm_num

/-- A pixel whose aspect is directly opposite the leeward bearing gets the
minimal leeward score contribution. -/
theorem pixelScore_at_windward (sf wt L : ℝ) :
    pixelScore sf L wt (some (some (jsMod (L + 180) 360))) =
      sf * (0.5 - 0.5 * wt) := by
  simp only [pixelScore]
  rw [angleDifference_opposite]
  rw [show (180:ℝ) * Real.pi / 180 = Real.pi by ring, Real.cos_pi]
  norm_num
  ring_nf
  left
  ring_nf

/-- C2: for fixed snowfall and wind inputs the score is maximal at a pixel
whose aspect equals the leeward direction `(windFromDirection + 180) mod 360`
and minimal at a pixel facing directly opposite; in the concrete scenario
snowfall 6 in, wind 30 mph from 270°, an aspect-90° pixel scores exactly 1 and
an aspect-270° pixel exactly 0. -/
theorem powderScores_leeward_extremes (g : List (Option ℝ))
    (wd snow p ws : ℝ) (w h i j k : ℕ)
    (hi : i < w * h) (hj : j < w * h) (hk : k < w * h)
    (hja : g[j]? = some (some (jsMod (wd + 180) 360)))
    (hka : g[k]? = some (some (jsMod (jsMod (wd + 180) 360 + 180) 360))) :
    ((computePowderScores g wd snow p ws w h)[k]?.getD 0 ≤
       (computePowderScores g wd snow p ws w h)[i]?.getD 0 ∧
     (computePowderScores g wd snow p ws w h)[i]?.getD 0 ≤
       (computePowderScores g wd snow p ws w h)[j]?.getD 0) ∧
    computePowderScores [some 90, some 270] 270 6 p 30 2 1 = [1, 0] := by
  constructor
  · by_cases hz : clamp (snow / 6.0) 0 1 = 0
    · have hrep : computePowderScores g wd snow p ws w h =
          List.replicate (w * h) 0 := by
        unfold computePowderScores
        rw [if_pos hz]
      rw [hrep]
      simp [List.getElem?_replicate_of_lt, hi, hj, hk]
    · have hsf0 := le_clamp (snow / 6.0) 0 1
      have hwt0 : (0:ℝ) ≤ clamp (ws / 30) 0.2 1.0 :=
        le_trans (by norm_num) (le_clamp _ _ _)
      rw [computePowderScores_getElem g wd snow p ws w h i hi hz,
        computePowderScores_getElem g wd snow p ws w h j hj hz,
        computePowderScores_getElem g wd snow p ws w h k hk hz, hja, hka]
      simp only [Option.getD_some]
      rw [pixelScore_at_leeward, pixelScore_at_windward]
      exact pixelScore_between hsf0 hwt0 _
  · have hsf : clamp ((6:ℝ) / 6.0) 0 1 = 1 := by
      unfold clamp; norm_num
    have hwt : clamp ((30:ℝ) / 30) 0.2 1.0 = 1 := by
      unfold clamp
      rw [show (30:ℝ) / 30 = 1 by norm_num]
      rw [min_eq_right (by norm_num), max_eq_right (by norm_num)]
    have hlw : jsMod ((270:ℝ) + 180) 360 = 90 := by
      rw [show ((270:ℝ) + 180) = 450 by norm_num,
        jsMod_eq_floor (by norm_num) (by norm_num)]
      norm_num
    have hd270 : angleDifference 270 90 = 180 := by
      unfold angleDifference
      rw [show (270:ℝ) - 90 = 180 by norm_num,
        norm360_self (by norm_num) (by norm_num),
        abs_of_nonneg (by norm_num : (0:ℝ) ≤ 180), if_neg (by norm_num)]
    have hrange : List.range (2 * 1) = [0, 1] := by decide
    unfold computePowderScores
    rw [if_neg (by rw [hsf]; norm_num)]
    rw [hrange]
    simp only [List.map_cons, List.map_nil]
    rw [hsf, hlw, hwt]
    have h0 : ([some (90:ℝ), some 270])[0]? = some (some 90) := rfl
    have h1 : ([some (90:ℝ), some 270])[1]? = some (some 270) := rfl
    rw [h0, h1]
    simp only [pixelScore]
    rw [angleDifference_self, hd270]
    rw [show (0:ℝ) * Real.pi / 180 = 0 by ring, Real.cos_zero,
      show (180:ℝ) * Real.pi / 180 = Real.pi by ring, Real.cos_pi]
    norm_num

/-- C2 witness: the general extremal statement instantiated on a concrete
three-pixel grid (leeward pixel, windward pixel, arbitrary third pixel). -/
theorem powderScores_leeward_extremes_witness :
    (0 < 3 * 1 ∧ 1 < 3 * 1 ∧ 2 < 3 * 1 ∧
      ([some (45:ℝ), some (jsMod (0 + 180) 360),
        some (jsMod (jsMod (0 + 180) 360 + 180) 360)])[1]? =
        some (some (jsMod (0 + 180) 360)) ∧
      ([some (45:ℝ), some (jsMod (0 + 180) 360),
        some (jsMod (jsMod (0 + 180) 360 + 180) 360)])[2]? =
        some (some (jsMod (jsMod (0 + 180) 360 + 180) 360))) ∧
    (((computePowderScores [some (45:ℝ), some (jsMod (0 + 180) 360),
        some (jsMod (jsMod (0 + 180) 360 + 180) 360)] 0 6 0 30 3 1)[2]?.getD 0 ≤
      (computePowderScores [some (45:ℝ), some (jsMod (0 + 180) 360),
        some (jsMod (jsMod (0 + 180) 360 + 180) 360)] 0 6 0 30 3 1)[0]?.getD 0 ∧
      (computePowderScores [some (45:ℝ), some (jsMod (0 + 180) 360),
        some (jsMod (jsMod (0 + 180) 360 + 180) 360)] 0 6 0 30 3 1)[0]?.getD 0 ≤
      (computePowderScores [some (45:ℝ), some (jsMod (0 + 180) 360),
        some (jsMod (jsMod (0 + 180) 360 + 180) 360)] 0 6 0 30 3 1)[1]?.getD 0) ∧
      computePowderScores [some 90, some 270] 270 6 0 30 2 1 = [1, 0]) :=
  ⟨⟨by norm_num, by norm_num, by norm_num, rfl, rfl⟩,
   powderScores_leeward_extremes
     [some (45:ℝ), some (jsMod (0 + 180) 360),
      some (jsMod (jsMod (0 + 180) 360 + 180) 360)] 0 6 0 30 3 1 0 1 2
     (by norm_num) (by norm_num) (by norm_num) rfl rfl⟩

/-! ## Aspect engine (src/js/terrain.js, computeAspectGrid) -/

/-- Model of `Math.atan2 y x`, the argument of the point `(x, y)`, in `(-π, π]`. -/
noncomputable def atan2 (y x : ℝ) : ℝ :=
  Complex.arg (x + y * Complex.I)

/-- Horn partial derivative `dzdx` of the 3×3 neighborhood around interior
pixel `(x, y)` (terrain.js lines 186–198). -/
noncomputable def hornDzdx (elevations : List ℝ) (width : ℕ) (cellSize : ℝ)
    (x y : ℕ) : ℝ :=
  let a := (elevations[(y - 1) * width + (x - 1)]?).getD 0
  let c := (elevations[(y - 1) * width + (x + 1)]?).getD 0
  let d := (elevations[y * width + (x - 1)]?).getD 0
  let f := (elevations[y * width + (x + 1)]?).getD 0
  let g := (elevations[(y + 1) * width + (x - 1)]?).getD 0
  let ii := (elevations[(y + 1) * width + (x + 1)]?).getD 0
  ((c + 2 * f + ii) - (a + 2 * d + g)) / (8 * cellSize)

/-- Horn partial derivative `dzdy` (terrain.js line 199). -/
noncomputable def hornDzdy (elevations : List ℝ) (width : ℕ) (cellSize : ℝ)
    (x y : ℕ) : ℝ :=
  let a := (elevations[(y - 1) * width + (x - 1)]?).getD 0
  let b := (elevations[(y - 1) * width + x]?).getD 0
  let c := (elevations[(y - 1) * width + (x + 1)]?).getD 0
  let g := (elevations[(y + 1) * width + (x - 1)]?).getD 0
  let h := (elevations[(y + 1) * width + x]?).getD 0
  let ii := (elevations[(y + 1) * width + (x + 1)]?).getD 0
  ((g + 2 * h + ii) - (a + 2 * b + c)) / (8 * cellSize)

/-- Model of `computeAspectGrid` from src/js/terrain.js: row-major grid of compass
bearings, with `none` modelling the `NaN` sentinel for edge and flat pixels. -/
noncomputable def computeAspectGrid (elevations : List ℝ)
    (width height : ℕ) (cellSize : ℝ) : List (Option ℝ) :=
  (List.range (width * height)).map fun idx =>
    let y := idx / width
    let x := idx % width
    if x = 0 ∨ x = width - 1 ∨ y = 0 ∨ y = height - 1 then none
    else
      let dzdx := hornDzdx elevations width cellSize x y
      let dzdy := hornDzdy elevations width cellSize x y
      if dzdx = 0 ∧ dzdy = 0 then none
      else some (norm360 (atan2 dzdx (-dzdy) * 180 / Real.pi))

/-- C3: in every grid produced by `computeAspectGrid`, edge pixels and
exactly-flat interior pixels carry the undefined sentinel, and every other
pixel carries a numeric bearing in `[0, 360)` — the sentinel is distinct from
every numeric bearing by construction. -/
theorem aspectGrid_sentinel_range (elevations : List ℝ) (width height : ℕ)
    (cellSize : ℝ) (idx : ℕ) (hidx : idx < width * height) :
    (idx % width = 0 ∨ idx % width = width - 1 ∨ idx / width = 0 ∨
        idx / width = height - 1 →
      (computeAspectGrid elevations width height cellSize)[idx]? = some none) ∧
    (¬(idx % width = 0 ∨ idx % width = width - 1 ∨ idx / width = 0 ∨
        idx / width = height - 1) →
      hornDzdx elevations width cellSize (idx % width) (idx / width) = 0 ∧
      hornDzdy elevations width cellSize (idx % width) (idx / width) = 0 →
      (computeAspectGrid elevations width height cellSize)[idx]? = some none) ∧
    (¬(idx % width = 0 ∨ idx % width = width - 1 ∨ idx / width = 0 ∨
        idx / width = height - 1) →
      ¬(hornDzdx elevations width cellSize (idx % width) (idx / width) = 0 ∧
        hornDzdy elevations width cellSize (idx % width) (idx / width) = 0) →
      ∃ v, (computeAspectGrid elevations width height cellSize)[idx]? =
          some (some v) ∧ 0 ≤ v ∧ v < 360) := by
  have hget : (computeAspectGrid elevations width height cellSize)[idx]? =
      some (if idx % width = 0 ∨ idx % width = width - 1 ∨ idx / width = 0 ∨
          idx / width = height - 1 then none
        else if hornDzdx elevations width cellSize (idx % width) (idx / width) = 0 ∧
            hornDzdy elevations width cellSize (idx % width) (idx / width) = 0 then none
        else some (norm360 (atan2
          (hornDzdx elevations width cellSize (idx % width) (idx / width))
          (-(hornDzdy elevations width cellSize (idx % width) (idx / width)))
          * 180 / Real.pi))) := by
    unfold computeAspectGrid
    simp [List.getElem?_map, List.getElem?_range hidx]
  refine ⟨?_, ?_, ?_⟩
  · intro hedge
    rw [hget, if_pos hedge]
  · intro hedge hflat
    rw [hget, if_neg hedge, if_pos hflat]
  · intro hedge hflat
    rw [hget, if_neg hedge, if_neg hflat]
    exact ⟨_, rfl, norm360_nonneg _, norm360_lt _⟩

/-- C3 witness: a 3×3 all-zero grid; its corner pixel is an edge pixel and its
center pixel is exactly flat, so both carry the sentinel. -/
theorem aspectGrid_sentinel_range_witness :
    (0 < 3 * 3 ∧ (0 % 3 = 0 ∨ 0 % 3 = 3 - 1 ∨ 0 / 3 = 0 ∨ 0 / 3 = 3 - 1)) ∧
    (computeAspectGrid (List.replicate 9 0) 3 3 1)[0]? = some none :=
  ⟨⟨by norm_num, by norm_num⟩,
   (aspectGrid_sentinel_range (List.replicate 9 0) 3 3 1 0 (by norm_num)).1
     (by norm_num)⟩

/-! ## Overlay rasterizer color ramp (src/js/overlay.js) -/

/-- One control point of the color ramp: `[score, r, g, b, a]`.  Scores are
exact rationals (every Float32 score is a rational number). -/
structure RampStop where
  score : ℚ
  r : ℤ
  g : ℤ
  b : ℤ
  a : ℤ
  deriving DecidableEq

/-- Model of `COLOR_RAMP` from src/js/overlay.js. -/
def COLOR_RAMP : List RampStop :=
  [⟨0.00, 0, 0, 0, 0⟩,
   ⟨0.35, 0, 0, 0, 0⟩,
   ⟨0.40, 120, 50, 160, 80⟩,
   ⟨0.50, 170, 50, 180, 150⟩,
   ⟨0.60, 220, 50, 160, 190⟩,
   ⟨0.75, 255, 80, 130, 220⟩,
   ⟨0.90, 255, 170, 200, 240⟩,
   ⟨1.00, 255, 255, 255, 255⟩]

/-- Linear interpolation between two bracketing ramp stops followed by
`Math.round` on each channel (`round` in Mathlib rounds half toward +∞,
matching `Math.round`). -/
def interpStops (lo hi : RampStop) (score : ℚ) : ℤ × ℤ × ℤ × ℤ :=
  let t := (score - lo.score) / (hi.score - lo.score)
  (round ((lo.r : ℚ) + t * ((hi.r : ℚ) - lo.r)),
   round ((lo.g : ℚ) + t * ((hi.g : ℚ) - lo.g)),
   round ((lo.b : ℚ) + t * ((hi.b : ℚ) - lo.b)),
   round ((lo.a : ℚ) + t * ((hi.a : ℚ) - lo.a)))

/-- The bracketing-pair scan of the `for` loop in `sampleRamp`
(overlay.js lines 29–41), with its `[0,0,0,0]` fallback. -/
def rampScan : List RampStop → ℚ → ℤ × ℤ × ℤ × ℤ
  | lo :: hi :: rest, score =>
    if lo.score ≤ score ∧ score ≤ hi.score then interpStops lo hi score
    else rampScan (hi :: rest) score
  | _, _ => (0, 0, 0, 0)

/-- Model of `sampleRamp` from src/js/overlay.js. -/
def sampleRamp (score : ℚ) : ℤ × ℤ × ℤ × ℤ :=
  let first := COLOR_RAMP.headD ⟨0, 0, 0, 0, 0⟩
  let last := COLOR_RAMP.getLastD ⟨0, 0, 0, 0, 0⟩
  if score ≤ first.score then (first.r, first.g, first.b, first.a)
  else if last.score ≤ score then (last.r, last.g, last.b, last.a)
  else rampScan COLOR_RAMP score

/-- C9: every score at or below 0.35 (including negative scores, which clamp
to the first ramp stop) is rendered fully transparent, and every score at or
above the last stop's threshold 1.0 is rendered as the last stop's exact
color (255, 255, 255, 255). -/
theorem sampleRamp_clamp_endpoints (s : ℚ) :
    (s ≤ 0.35 → (sampleRamp s).2.2.2 = 0) ∧
    (1 ≤ s → sampleRamp s = (255, 255, 255, 255)) := by
  have hfirst : COLOR_RAMP.headD ⟨0, 0, 0, 0, 0⟩ = ⟨0.00, 0, 0, 0, 0⟩ := rfl
  have hlast : COLOR_RAMP.getLastD ⟨0, 0, 0, 0, 0⟩ = ⟨1.00, 255, 255, 255, 255⟩ :=
    rfl
  constructor
  · intro hs
    unfold sampleRamp
    rw [hfirst, hlast]
    by_cases h0 : s ≤ (0.00 : ℚ)
    · rw [if_pos h0]
    · rw [if_neg h0, if_neg (by norm_num at hs h0 ⊢; linarith)]
      simp only [COLOR_RAMP, rampScan]
      rw [if_pos ⟨by norm_num at h0 ⊢; linarith, by norm_num at hs ⊢; linarith⟩]
      simp [interpStops]
  · intro hs
    unfold sampleRamp
    rw [hfirst, hlast]
    rw [if_neg (by norm_num; linarith), if_pos (by norm_num; linarith)]

/-- C9 witness: score 0.2 gets alpha 0; score 1.5 clamps to pure white. -/
theorem sampleRamp_clamp_endpoints_witness :
    ((1 : ℚ) / 5 ≤ 0.35 ∧ (sampleRamp (1 / 5)).2.2.2 = 0) ∧
    ((1 : ℚ) ≤ 3 / 2 ∧ sampleRamp (3 / 2) = (255, 255, 255, 255)) :=
  ⟨⟨by norm_num, (sampleRamp_clamp_endpoints (1 / 5)).1 (by norm_num)⟩,
   ⟨by norm_num, (sampleRamp_clamp_endpoints (3 / 2)).2 (by norm_num)⟩⟩

/-! ## Geodesy (src/js/terrain.js, lonLatToTile / tileToBounds / getCellSize) -/

/-- Slippy-map tile coordinate. -/
structure TileCoord where
  x : ℤ
  y : ℤ

/-- Geographic footprint of a tile. -/
structure TileBounds where
  lonMin : ℝ
  lonMax : ℝ
  latMin : ℝ
  latMax : ℝ

/-- Model of `lonLatToTile` from src/js/terrain.js: standard slippy-map projection. -/
noncomputable def lonLatToTile (lon lat : ℝ) (zoom : ℕ) : TileCoord :=
  let n : ℝ := 2 ^ zoom
  let latRad := lat * Real.pi / 180
  ⟨⌊(lon + 180) / 360 * n⌋,
   ⌊(1 - Real.log (Real.tan latRad + 1 / Real.cos latRad) / Real.pi) / 2 * n⌋⟩

/-- Model of `tileToBounds` from src/js/terrain.js: inverse Mercator footprint. -/
noncomputable def tileToBounds (x y : ℤ) (zoom : ℕ) : TileBounds :=
  let n : ℝ := 2 ^ zoom
  ⟨(x : ℝ) / n * 360 - 180,
   ((x : ℝ) + 1) / n * 360 - 180,
   Real.arctan (Real.sinh (Real.pi * (1 - 2 * ((y : ℝ) + 1) / n))) * 180 / Real.pi,
   Real.arctan (Real.sinh (Real.pi * (1 - 2 * (y : ℝ) / n))) * 180 / Real.pi⟩

/-- Model of `getCellSize` from src/js/terrain.js: meters per pixel at a zoom/latitude. -/
noncomputable def getCellSize (zoom : ℕ) (lat : ℝ) : ℝ :=
  40075016.686 * Real.cos (lat * Real.pi / 180) / (256 * 2 ^ zoom)

/-- The Mercator forward transform `ln(tan φ + sec φ)` is inverted exactly by
`sinh`: `sinh (ln (tan φ + 1 / cos φ)) = tan φ` on `(-π/2, π/2)`. -/
theorem sinh_log_mercator {φ : ℝ} (hφl : -(Real.pi / 2) < φ)
    (hφu : φ < Real.pi / 2) :
    Real.sinh (Real.log (Real.tan φ + 1 / Real.cos φ)) = Real.tan φ := by
  have hcos : 0 < Real.cos φ := Real.cos_pos_of_mem_Ioo ⟨hφl, hφu⟩
  have hsin : -1 < Real.sin φ := by
    have hmem1 : -(Real.pi / 2) ∈ Set.Icc (-(Real.pi / 2)) (Real.pi / 2) :=
      ⟨le_rfl, by linarith [Real.pi_pos]⟩
    have hmem2 : φ ∈ Set.Icc (-(Real.pi / 2)) (Real.pi / 2) :=
      ⟨hφl.le, hφu.le⟩
    have := Real.strictMonoOn_sin hmem1 hmem2 hφl
    rwa [Real.sin_neg, Real.sin_pi_div_two] at this
  have hU : Real.tan φ + 1 / Real.cos φ = (Real.sin φ + 1) / Real.cos φ := by
    rw [Real.tan_eq_sin_div_cos]; ring
  have hu : 0 < Real.tan φ + 1 / Real.cos φ := by
    rw [hU]; exact div_pos (by linarith) hcos
  rw [Real.sinh_eq, Real.exp_neg, Real.exp_log hu, hU, Real.tan_eq_sin_div_cos]
  rw [inv_div]
  have hs1 : Real.sin φ + 1 ≠ 0 := by linarith
  have hsq := Real.sin_sq_add_cos_sq φ
  field_simp
  nlinarith [hsq]

/-- C4: for every longitude in `[-180, 180]`, latitude in `(-90, 90)` and
zoom, the tile computed by `lonLatToTile` has a geographic footprint under
`tileToBounds` that contains the original point. -/
theorem tile_roundtrip_contains (lon lat : ℝ) (zoom : ℕ)
    (h1 : -180 ≤ lon) (h2 : lon ≤ 180) (h3 : -90 < lat) (h4 : lat < 90) :
    (tileToBounds (lonLatToTile lon lat zoom).x (lonLatToTile lon lat zoom).y
        zoom).lonMin ≤ lon ∧
    lon ≤ (tileToBounds (lonLatToTile lon lat zoom).x
        (lonLatToTile lon lat zoom).y zoom).lonMax ∧
    (tileToBounds (lonLatToTile lon lat zoom).x (lonLatToTile lon lat zoom).y
        zoom).latMin ≤ lat ∧
    lat ≤ (tileToBounds (lonLatToTile lon lat zoom).x
        (lonLatToTile lon lat zoom).y zoom).latMax := by
  have hπ := Real.pi_pos
  have hn : (0:ℝ) < 2 ^ zoom := by positivity
  simp only [lonLatToTile, tileToBounds]
  set n : ℝ := 2 ^ zoom with hndef
  set φ := lat * Real.pi / 180 with hφdef
  have hφu : φ < Real.pi / 2 := by
    rw [hφdef]; nlinarith
  have hφl : -(Real.pi / 2) < φ := by
    rw [hφdef]; nlinarith
  set m := Real.log (Real.tan φ + 1 / Real.cos φ) with hmdef
  set T := (1 - m / Real.pi) / 2 * n with hTdef
  have hyle : ((⌊T⌋ : ℝ)) ≤ T := Int.floor_le T
  have hygt : T < (⌊T⌋ : ℝ) + 1 := Int.lt_floor_add_one T
  have hTn : Real.pi * (1 - 2 * T / n) = m := by
    rw [hTdef]; field_simp; ring
  have hφlat : φ * 180 / Real.pi = lat := by
    rw [hφdef]; field_simp
  have hkey : Real.sinh m = Real.tan φ := by
    rw [hmdef]; exact sinh_log_mercator hφl hφu
  clear_value T m φ n
  refine ⟨?_, ?_, ?_, ?_⟩
  · -- lonMin ≤ lon
    have hfl : ((⌊(lon + 180) / 360 * n⌋ : ℝ)) ≤ (lon + 180) / 360 * n :=
      Int.floor_le _
    rw [div_mul_eq_mul_div, sub_le_iff_le_add, div_le_iff₀ hn]
    nlinarith
  · -- lon ≤ lonMax
    have hfl : (lon + 180) / 360 * n < (⌊(lon + 180) / 360 * n⌋ : ℝ) + 1 :=
      Int.lt_floor_add_one _
    rw [le_sub_iff_add_le, div_mul_eq_mul_div, le_div_iff₀ hn]
    nlinarith
  · -- latMin ≤ lat
    have harg : Real.pi * (1 - 2 * ((⌊T⌋ : ℝ) + 1) / n) < m := by
      rw [← hTn]
      have h2T : 2 * T / n < 2 * ((⌊T⌋ : ℝ) + 1) / n :=
        (div_lt_div_iff_of_pos_right hn).mpr (by linarith)
      exact mul_lt_mul_of_pos_left (by linarith) hπ
    have hmono := Real.arctan_strictMono
      ((Real.sinh_lt_sinh).mpr harg)
    rw [hkey, Real.arctan_tan hφl hφu] at hmono
    rw [div_le_iff₀ hπ]
    rw [hφdef] at hmono
    linarith
  · -- lat ≤ latMax
    have harg : m ≤ Real.pi * (1 - 2 * (⌊T⌋ : ℝ) / n) := by
      rw [← hTn]
      have h2T : 2 * (⌊T⌋ : ℝ) / n ≤ 2 * T / n :=
        (div_le_div_iff_of_pos_right hn).mpr (by linarith)
      exact mul_le_mul_of_nonneg_left (by linarith) hπ.le
    have hmono := Real.arctan_strictMono.monotone
      ((Real.sinh_le_sinh).mpr harg)
    rw [hkey, Real.arctan_tan hφl hφu] at hmono
    rw [le_div_iff₀ hπ]
    rw [hφdef] at hmono
    linarith

/-- C4 witness: the equator/prime-meridian point at zoom 1. -/
theorem tile_roundtrip_contains_witness :
    ((-180:ℝ) ≤ 0 ∧ (0:ℝ) ≤ 180 ∧ (-90:ℝ) < 0 ∧ (0:ℝ) < 90) ∧
    ((tileToBounds (lonLatToTile 0 0 1).x (lonLatToTile 0 0 1).y 1).lonMin ≤ 0 ∧
     (0:ℝ) ≤ (tileToBounds (lonLatToTile 0 0 1).x (lonLatToTile 0 0 1).y 1).lonMax ∧
     (tileToBounds (lonLatToTile 0 0 1).x (lonLatToTile 0 0 1).y 1).latMin ≤ 0 ∧
     (0:ℝ) ≤ (tileToBounds (lonLatToTile 0 0 1).x (lonLatToTile 0 0 1).y 1).latMax) :=
  ⟨⟨by norm_num, by norm_num, by norm_num, by norm_num⟩,
   tile_roundtrip_contains 0 0 1 (by norm_num) (by norm_num) (by norm_num)
     (by norm_num)⟩

/-! ## Wind aggregator (src/js/weather.js, computeDominantWind) -/

/-- The `hourly` payload consumed by `computeDominantWind`: parallel series
that may each be absent (`undefined` in the source), with individually null
samples inside. -/
structure Hourly where
  wind_speed_10m : Option (List (Option ℝ))
  wind_direction_10m : Option (List (Option ℝ))
  wind_gusts_10m : Option (List (Option ℝ))
  precipitation : Option (List (Option ℝ))

/-- Loop accumulator of `computeDominantWind` (weather.js lines 175–180). -/
structure WindAcc where
  sumX : ℝ
  sumY : ℝ
  totalWeight : ℝ
  totalSpeed : ℝ
  maxGust : ℝ
  validCount : ℕ

/-- Aggregate returned by `computeDominantWind`. -/
structure DominantWind where
  direction : ℝ
  avgSpeed : ℝ
  maxGust : ℝ

/-- The per-sample precipitation default
`(precip && precip[i] != null) ? precip[i] : 0` (weather.js line 187). -/
noncomputable def precipAt (hourly : Hourly) (i : ℕ) : ℝ :=
  match hourly.precipitation with
  | some pr => ((pr[i]?).join).getD 0
  | none => 0

/-- One iteration of the accumulation loop in `computeDominantWind`
(weather.js lines 182–200); samples missing speed or direction are skipped. -/
noncomputable def windStep (hourly : Hourly) (speeds dirs : List (Option ℝ))
    (acc : WindAcc) (i : ℕ) : WindAcc :=
  match (speeds[i]?).join, (dirs[i]?).join with
  | some spd, some dir =>
    let p := precipAt hourly i
    let weight := spd * (1 + p * 10)
    let rad := dir * Real.pi / 180
    let newMaxGust :=
      match hourly.wind_gusts_10m with
      | some gusts =>
        match (gusts[i]?).join with
        | some gu => if gu > acc.maxGust then gu else acc.maxGust
        | none => acc.maxGust
      | none => acc.maxGust
    ⟨acc.sumX + weight * Real.sin rad,
     acc.sumY + weight * Real.cos rad,
     acc.totalWeight + weight,
     acc.totalSpeed + spd,
     newMaxGust,
     acc.validCount + 1⟩
  | _, _ => acc

/-- Model of `computeDominantWind` from src/js/weather.js: snow-weighted circular mean
direction, unweighted mean speed, max gust; `none` models the `null` returns. -/
noncomputable def computeDominantWind (hourly : Hourly) : Option DominantWind :=
  match hourly.wind_speed_10m, hourly.wind_direction_10m with
  | some speeds, some dirs =>
    if speeds.length = 0 then none
    else
      let acc := (List.range speeds.length).foldl
        (windStep hourly speeds dirs) ⟨0, 0, 0, 0, 0, 0⟩
      if acc.validCount = 0 ∨ acc.totalWeight = 0 then none
      else
        some ⟨norm360 (atan2 acc.sumX acc.sumY * 180 / Real.pi),
              acc.totalSpeed / (acc.validCount : ℝ),
              acc.maxGust⟩
  | _, _ => none

theorem foldl_id_of_skip {α : Type} (f : α → ℕ → α) (l : List ℕ) (a : α)
    (h : ∀ b : α, ∀ i ∈ l, f b i = b) : l.foldl f a = a := by
  induction l generalizing a with
  | nil => rfl
  | cons x t ih =>
    rw [List.foldl_cons, h a x (List.mem_cons_self x t)]
    exact ih a fun b i hi => h b i (List.mem_cons_of_mem x hi)

/-- Folding over `range n` where every index but `j` is a no-op is the same
as applying the step once at `j`. -/
theorem foldl_range_single {α : Type} (f : α → ℕ → α) (a : α) (n j : ℕ)
    (hj : j < n) (hid : ∀ b : α, ∀ i, i < n → i ≠ j → f b i = b) :
    (List.range n).foldl f a = f a j := by
  induction n with
  | zero => omega
  | succ k ih =>
    rw [List.range_succ, List.foldl_append, List.foldl_cons, List.foldl_nil]
    rcases Nat.lt_or_ge j k with hlt | hge
    · rw [ih hlt fun b i hi hne => hid b i (by omega) hne]
      exact hid (f a j) k (by omega) (by omega)
    · have hjk : j = k := by omega
      subst hjk
      have hfold : List.foldl f a (List.range j) = a := by
        refine foldl_id_of_skip f (List.range j) a fun b i hi => ?_
        have := List.mem_range.mp hi
        exact hid b i (by omega) (by omega)
      rw [hfold]

/-- The in-range skip hypothesis specialised to `windStep`. -/
theorem windStep_skip (hourly : Hourly) (speeds dirs : List (Option ℝ))
    (acc : WindAcc) (i : ℕ)
    (h : (speeds[i]?).join = none ∨ (dirs[i]?).join = none) :
    windStep hourly speeds dirs acc i = acc := by
  unfold windStep
  rcases h with h | h
  · rw [h]
  · rw [h]
    rcases (speeds[i]?).join with _ | v
    · rfl
    · rfl

/-- Normalizing the `atan2`-recovered bearing of a unit vector at bearing
`d ∈ [0, 360)` gives back exactly `d`. -/
theorem norm360_atan2_bearing (d : ℝ) (hd0 : 0 ≤ d) (hd1 : d < 360) :
    norm360 (atan2 (Real.sin (d * Real.pi / 180))
      (Real.cos (d * Real.pi / 180)) * 180 / Real.pi) = d := by
  have hπ := Real.pi_pos
  have hrad0 : 0 ≤ d * Real.pi / 180 := by positivity
  have hrad2π : d * Real.pi / 180 < 2 * Real.pi := by nlinarith
  unfold atan2
  rcases le_or_lt (d * Real.pi / 180) Real.pi with hle | hgt
  · rw [Complex.ofReal_cos, Complex.ofReal_sin,
      Complex.arg_cos_add_sin_mul_I ⟨by linarith, hle⟩]
    have : d * Real.pi / 180 * 180 / Real.pi = d := by field_simp
    rw [this]
    exact norm360_self hd0 hd1
  · rw [show Real.cos (d * Real.pi / 180) =
        Real.cos (d * Real.pi / 180 - 2 * Real.pi) from
        (Real.cos_sub_two_pi _).symm,
      show Real.sin (d * Real.pi / 180) =
        Real.sin (d * Real.pi / 180 - 2 * Real.pi) from
        (Real.sin_sub_two_pi _).symm,
      Complex.ofReal_cos, Complex.ofReal_sin,
      Complex.arg_cos_add_sin_mul_I ⟨by linarith, by linarith⟩]
    have : (d * Real.pi / 180 - 2 * Real.pi) * 180 / Real.pi = d - 360 := by
      field_simp; ring
    rw [this]
    exact norm360_eq_of_rep (-1) (by push_cast; ring) hd0 hd1

/-- C5 counterexample: a series whose single sample has speed and direction
both present but speed 0 makes the total weight 0, so `computeDominantWind`
reports "no wind signal" (`none`) instead of an aggregate with that sample's
direction — refuting the claim for this input. -/
theorem dominantWind_single_sample_cex :
    computeDominantWind ⟨some [some 0], some [some 90], none, none⟩ = none := by
  have hstep : windStep ⟨some [some 0], some [some 90], none, none⟩
      [some 0] [some 90] ⟨0, 0, 0, 0, 0, 0⟩ 0 =
      ⟨0, 0, 0, 0, 0, 1⟩ := by
    simp only [windStep]
    norm_num [precipAt]
  simp only [computeDominantWind]
  rw [show List.range ([some (0:ℝ)].length) = [0] from rfl]
  rw [List.foldl_cons, List.foldl_nil, hstep]
  norm_num

/-- C5 (amended): for a series whose unique sample with both speed and
direction present has positive speed, nonnegative precipitation weight and a
direction in `[0, 360)`, `computeDominantWind` returns an aggregate whose
direction is exactly that sample's direction and whose average speed is
exactly that sample's speed. -/
theorem dominantWind_single_valid_sample (hourly : Hourly)
    (speeds dirs : List (Option ℝ)) (j : ℕ) (s d : ℝ)
    (hsp : hourly.wind_speed_10m = some speeds)
    (hdr : hourly.wind_direction_10m = some dirs)
    (hj : j < speeds.length)
    (hsj : (speeds[j]?).join = some s)
    (hdj : (dirs[j]?).join = some d)
    (honly : ∀ i, i < speeds.length → i ≠ j →
      (speeds[i]?).join = none ∨ (dirs[i]?).join = none)
    (hs : 0 < s) (hp : 0 ≤ precipAt hourly j)
    (hd0 : 0 ≤ d) (hd1 : d < 360) :
    ∃ w, computeDominantWind hourly = some w ∧
      w.direction = d ∧ w.avgSpeed = s := by
  have hw : 0 < s * (1 + precipAt hourly j * 10) := mul_pos hs (by linarith)
  have hacc : (List.range speeds.length).foldl
      (windStep hourly speeds dirs) ⟨0, 0, 0, 0, 0, 0⟩ =
      windStep hourly speeds dirs ⟨0, 0, 0, 0, 0, 0⟩ j :=
    foldl_range_single _ _ _ j hj fun b i hi hne =>
      windStep_skip hourly speeds dirs b i (honly i hi hne)
  have hstep : windStep hourly speeds dirs ⟨0, 0, 0, 0, 0, 0⟩ j =
      ⟨0 + s * (1 + precipAt hourly j * 10) * Real.sin (d * Real.pi / 180),
       0 + s * (1 + precipAt hourly j * 10) * Real.cos (d * Real.pi / 180),
       0 + s * (1 + precipAt hourly j * 10), 0 + s,
       (match hourly.wind_gusts_10m with
        | some gusts =>
          match (gusts[j]?).join with
          | some gu => if gu > (0:ℝ) then gu else 0
          | none => 0
        | none => 0),
       0 + 1⟩ := by
    simp only [windStep, hsj, hdj]
  simp only [computeDominantWind, hsp, hdr]
  rw [if_neg (by omega)]
  rw [hacc, hstep]
  rw [if_neg (by push_neg; exact ⟨by norm_num, by simp only; linarith⟩)]
  refine ⟨_, rfl, ?_, ?_⟩
  · show norm360 (atan2
      (0 + s * (1 + precipAt hourly j * 10) * Real.sin (d * Real.pi / 180))
      (0 + s * (1 + precipAt hourly j * 10) * Real.cos (d * Real.pi / 180))
      * 180 / Real.pi) = d
    rw [zero_add, zero_add]
    have hre : ((s * (1 + precipAt hourly j * 10) *
          Real.cos (d * Real.pi / 180) : ℝ) : ℂ) +
        ((s * (1 + precipAt hourly j * 10) *
          Real.sin (d * Real.pi / 180) : ℝ) : ℂ) * Complex.I =
        ((s * (1 + precipAt hourly j * 10) : ℝ) : ℂ) *
          (((Real.cos (d * Real.pi / 180) : ℝ) : ℂ) +
           ((Real.sin (d * Real.pi / 180) : ℝ) : ℂ) * Complex.I) := by
      push_cast
      ring
    unfold atan2
    rw [hre, Complex.arg_real_mul _ hw]
    have := norm360_atan2_bearing d hd0 hd1
    unfold atan2 at this
    exact this
  · show (0 + s) / ((0 + 1 : ℕ) : ℝ) = s
    norm_num

/-- C5 witness for the amended theorem: a one-sample series, 5 mph from 90°. -/
theorem dominantWind_single_valid_sample_witness :
    ((0:ℝ) < 5 ∧ (0:ℝ) ≤ 90 ∧ (90:ℝ) < 360) ∧
    ∃ w, computeDominantWind ⟨some [some 5], some [some 90], none, none⟩ =
        some w ∧ w.direction = 90 ∧ w.avgSpeed = 5 :=
  ⟨⟨by norm_num, by norm_num, by norm_num⟩,
   dominantWind_single_valid_sample
     ⟨some [some 5], some [some 90], none, none⟩ [some 5] [some 90] 0 5 90
     rfl rfl (by norm_num) rfl rfl
     (fun i hi hne => absurd (by simp at hi; omega) hne)
     (by norm_num) (by simp [precipAt]) (by norm_num) (by norm_num)⟩

/-! ## Grid stitcher (src/js/terrain.js, fetchTerrainGrid lines 117–139) -/

/-- One decoded terrain tile with its tile coordinates. -/
structure RawTile where
  tx : ℤ
  ty : ℤ
  elevations : List ℝ

/-- The nested pixel-copy loops for one tile (terrain.js lines 133–138):
pixel `(px, py)` of the tile lands at `(offsetY + py) * width + offsetX + px`. -/
def writeTile (tileSize width col row : ℕ) (elev : List ℝ)
    (grid : List ℝ) : List ℝ :=
  (List.range tileSize).foldl (fun g py =>
    (List.range tileSize).foldl (fun g2 px =>
      g2.set ((row * tileSize + py) * width + (col * tileSize + px))
        (elev.getD (py * tileSize + px) 0)) g) grid

/-- The stitching loop of `fetchTerrainGrid`: a zero-initialised
`width × height` grid receives every tile's pixels at its block offset. -/
def stitchTiles (tiles : List RawTile) (minTx minTy : ℤ)
    (cols rows tileSize : ℕ) : List ℝ :=
  let width := cols * tileSize
  let height := rows * tileSize
  tiles.foldl (fun grid tile =>
    writeTile tileSize width (tile.tx - minTx).toNat (tile.ty - minTy).toNat
      tile.elevations grid)
    (List.replicate (width * height) 0)

/-- Base-`W` uniqueness of block positions. -/
theorem mul_add_inj {W a b c d : ℕ} (hb : b < W) (hd : d < W)
    (h : a * W + b = c * W + d) : a = c ∧ b = d := by
  rcases lt_trichotomy a c with hlt | heq | hgt
  · exfalso
    have hstep : a * W + b < c * W + d := by
      calc a * W + b < a * W + W := Nat.add_lt_add_left hb _
        _ = (a + 1) * W := by ring
        _ ≤ c * W := Nat.mul_le_mul_right W (by omega)
        _ ≤ c * W + d := Nat.le_add_right _ _
    exact absurd h (Nat.ne_of_lt hstep)
  · subst heq
    exact ⟨rfl, Nat.add_left_cancel h⟩
  · exfalso
    have hstep : c * W + d < a * W + b := by
      calc c * W + d < c * W + W := Nat.add_lt_add_left hd _
        _ = (c + 1) * W := by ring
        _ ≤ a * W := Nat.mul_le_mul_right W (by omega)
        _ ≤ a * W + b := Nat.le_add_right _ _
    exact absurd h.symm (Nat.ne_of_lt hstep)

theorem foldl_length_preserve {β : Type} (step : List ℝ → β → List ℝ)
    (l : List β) (g : List ℝ)
    (H : ∀ g2 i, (step g2 i).length = g2.length) :
    (l.foldl step g).length = g.length := by
  induction l generalizing g with
  | nil => rfl
  | cons x t ih => rw [List.foldl_cons, ih (step g x), H]

theorem getElem?_foldl_unchanged {β : Type} (step : List ℝ → β → List ℝ)
    (q : ℕ) (l : List β) (g : List ℝ)
    (H : ∀ g2, ∀ i ∈ l, (step g2 i)[q]? = g2[q]?) :
    (l.foldl step g)[q]? = g[q]? := by
  induction l generalizing g with
  | nil => rfl
  | cons x t ih =>
    rw [List.foldl_cons, ih (step g x)
      (fun g2 i hi => H g2 i (List.mem_cons_of_mem x hi))]
    exact H g x (List.mem_cons_self x t)

/-- A fold of writes whose step writes `val` to position `q` at element `j`
and leaves `q` alone at every other element ends with `val` at `q`. -/
theorem getElem?_foldl_write {β : Type} (step : List ℝ → β → List ℝ)
    (q : ℕ) (val : ℝ) (l : List β) (j : β) (g : List ℝ)
    (Hlen : ∀ g2 i, (step g2 i).length = g2.length)
    (HjVal : ∀ g2 : List ℝ, q < g2.length → (step g2 j)[q]? = some val)
    (Hskip : ∀ g2, ∀ i ∈ l, i ≠ j → (step g2 i)[q]? = g2[q]?)
    (hj : j ∈ l) (hq : q < g.length) :
    (l.foldl step g)[q]? = some val := by
  induction l generalizing g with
  | nil => cases hj
  | cons x t ih =>
    rw [List.foldl_cons]
    by_cases hx : j ∈ t
    · exact ih (step g x)
        (fun g2 i hi hne => Hskip g2 i (List.mem_cons_of_mem x hi) hne)
        hx (by rw [Hlen]; exact hq)
    · have hxj : x = j := by
        rcases List.mem_cons.mp hj with h | h
        · exact h.symm
        · exact absurd h hx
      subst hxj
      rw [getElem?_foldl_unchanged step q t (step g x)
        (fun g2 i hi => Hskip g2 i (List.mem_cons_of_mem x hi)
          (fun he => hx (he ▸ hi)))]
      exact HjVal g hq

theorem writeTile_length (ts W col row : ℕ) (elev g : List ℝ) :
    (writeTile ts W col row elev g).length = g.length := by
  unfold writeTile
  refine foldl_length_preserve _ _ _ fun g2 py => ?_
  exact foldl_length_preserve _ _ _ fun g3 px => List.length_set g3 _ _

/-- After `writeTile`, the grid holds tile pixel `(px, py)` at its block
position. -/
theorem writeTile_get (ts W col row px py : ℕ) (elev g : List ℝ)
    (hpx : px < ts) (hpy : py < ts) (hW : col * ts + ts ≤ W)
    (hq : (row * ts + py) * W + (col * ts + px) < g.length) :
    (writeTile ts W col row elev g)[
        (row * ts + py) * W + (col * ts + px)]? =
      some (elev.getD (py * ts + px) 0) := by
  unfold writeTile
  refine getElem?_foldl_write _ _ _ _ py _ ?_ ?_ ?_ (List.mem_range.mpr hpy) hq
  · intro g2 py'
    exact foldl_length_preserve _ _ _ fun g3 px' => List.length_set g3 _ _
  · intro g2 hq2
    refine getElem?_foldl_write _ _ _ _ px _ ?_ ?_ ?_ (List.mem_range.mpr hpx) hq2
    · intro g3 px'
      exact List.length_set g3 _ _
    · intro g3 hq3
      exact List.getElem?_set_eq_of_lt _ hq3
    · intro g3 px' hpx' hne
      exact List.getElem?_set_ne (by omega)
  · intro g2 py' hpy' hne
    refine getElem?_foldl_unchanged _ _ _ _ fun g3 px' hpx' => ?_
    refine List.getElem?_set_ne ?_
    intro heq
    have hc : col * ts + px' < W := by
      have := List.mem_range.mp hpx'
      omega
    have hc2 : col * ts + px < W := by omega
    obtain ⟨ha, hb⟩ := mul_add_inj hc hc2 heq
    have := List.mem_range.mp hpy'
    omega

/-- Applying `writeTile` for a tile at a different block offset leaves the position of
`(col, row, px, py)` untouched. -/
theorem writeTile_unchanged (ts W col row px py col' row' : ℕ)
    (elev g : List ℝ) (hpx : px < ts) (hpy : py < ts)
    (hW : col * ts + ts ≤ W) (hW' : col' * ts + ts ≤ W)
    (hne : col' ≠ col ∨ row' ≠ row) :
    (writeTile ts W col' row' elev g)[
        (row * ts + py) * W + (col * ts + px)]? =
      g[(row * ts + py) * W + (col * ts + px)]? := by
  unfold writeTile
  refine getElem?_foldl_unchanged _ _ _ _ fun g2 py' hpy' => ?_
  refine getElem?_foldl_unchanged _ _ _ _ fun g3 px' hpx' => ?_
  refine List.getElem?_set_ne ?_
  intro heq
  have hmpx' := List.mem_range.mp hpx'
  have hmpy' := List.mem_range.mp hpy'
  have hc : col' * ts + px' < W := by omega
  have hc2 : col * ts + px < W := by omega
  obtain ⟨ha, hb⟩ := mul_add_inj hc hc2 heq
  rcases hne with hne | hne
  · -- col' = col forced by hb
    have : col' = col ∧ px' = px := mul_add_inj (by omega) (by omega) hb
    exact hne this.1
  · have : row' = row ∧ py' = py := mul_add_inj (by omega) (by omega) ha
    exact hne this.1

/-- C8: stitching places pixel `(px, py)` of the tile at block offset
`(col, row)` at grid position `(row·tileSize + py) · width + col·tileSize + px`
of the `(cols·tileSize) × (rows·tileSize)` output grid. -/
theorem stitch_block_placement (tiles : List RawTile) (minTx minTy : ℤ)
    (cols rows tileSize : ℕ) (tile : RawTile) (col row px py : ℕ)
    (htile : tile ∈ tiles)
    (hcol : tile.tx - minTx = (col : ℤ)) (hrow : tile.ty - minTy = (row : ℤ))
    (hcols : col < cols) (hrows : row < rows)
    (hpx : px < tileSize) (hpy : py < tileSize)
    (hrange : ∀ t' ∈ tiles, 0 ≤ t'.tx - minTx ∧ t'.tx - minTx < (cols : ℤ) ∧
      0 ≤ t'.ty - minTy ∧ t'.ty - minTy < (rows : ℤ))
    (huniq : ∀ t' ∈ tiles, t' ≠ tile → t'.tx ≠ tile.tx ∨ t'.ty ≠ tile.ty) :
    (stitchTiles tiles minTx minTy cols rows tileSize)[
        (row * tileSize + py) * (cols * tileSize) +
          (col * tileSize + px)]? =
      some (tile.elevations.getD (py * tileSize + px) 0) := by
  have hWcol : col * tileSize + tileSize ≤ cols * tileSize := by
    calc col * tileSize + tileSize = (col + 1) * tileSize := by ring
      _ ≤ cols * tileSize := Nat.mul_le_mul_right _ (by omega)
  have hHrow : row * tileSize + tileSize ≤ rows * tileSize := by
    calc row * tileSize + tileSize = (row + 1) * tileSize := by ring
      _ ≤ rows * tileSize := Nat.mul_le_mul_right _ (by omega)
  have hqlen : (row * tileSize + py) * (cols * tileSize) +
      (col * tileSize + px) < cols * tileSize * (rows * tileSize) := by
    have hc : col * tileSize + px < cols * tileSize := by omega
    have hr : row * tileSize + py + 1 ≤ rows * tileSize := by omega
    calc (row * tileSize + py) * (cols * tileSize) + (col * tileSize + px)
        < (row * tileSize + py) * (cols * tileSize) + cols * tileSize :=
          Nat.add_lt_add_left hc _
      _ = (row * tileSize + py + 1) * (cols * tileSize) := by ring
      _ ≤ (rows * tileSize) * (cols * tileSize) := Nat.mul_le_mul_right _ hr
      _ = cols * tileSize * (rows * tileSize) := Nat.mul_comm _ _
  unfold stitchTiles
  refine getElem?_foldl_write _ _ _ _ tile _ ?_ ?_ ?_ htile
    (by rw [List.length_replicate]; exact hqlen)
  · intro g2 t
    exact writeTile_length _ _ _ _ _ _
  · intro g2 hq2
    have hcolnat : (tile.tx - minTx).toNat = col := by omega
    have hrownat : (tile.ty - minTy).toNat = row := by omega
    rw [hcolnat, hrownat]
    exact writeTile_get _ _ _ _ _ _ _ _ hpx hpy hWcol hq2
  · intro g2 t' ht' hne
    obtain ⟨h1, h2, h3, h4⟩ := hrange t' ht'
    have hW' : (t'.tx - minTx).toNat * tileSize + tileSize ≤
        cols * tileSize := by
      calc (t'.tx - minTx).toNat * tileSize + tileSize =
          ((t'.tx - minTx).toNat + 1) * tileSize := by ring
        _ ≤ cols * tileSize := Nat.mul_le_mul_right _ (by omega)
    refine writeTile_unchanged _ _ _ _ _ _ _ _ _ _ hpx hpy hWcol hW' ?_
    rcases huniq t' ht' hne with hne' | hne'
    · left; omega
    · right; omega

/-- C8 witness: a 2×2 arrangement of one-pixel tiles; the tile at offset
`(1, 0)` lands at grid position 1. -/
theorem stitch_block_placement_witness :
    (stitchTiles [⟨0, 0, [10]⟩, ⟨1, 0, [20]⟩, ⟨0, 1, [30]⟩, ⟨1, 1, [40]⟩]
        0 0 2 2 1)[(0 * 1 + 0) * (2 * 1) + (1 * 1 + 0)]? =
      some (([(20:ℝ)]).getD (0 * 1 + 0) 0) :=
  stitch_block_placement
    [⟨0, 0, [10]⟩, ⟨1, 0, [20]⟩, ⟨0, 1, [30]⟩, ⟨1, 1, [40]⟩] 0 0 2 2 1
    ⟨1, 0, [20]⟩ 1 0 0 0
    (by simp)
    (by norm_num) (by norm_num) (by norm_num) (by norm_num) (by norm_num)
    (by norm_num)
    (by intro t' ht'; fin_cases ht' <;> norm_num)
    (by intro t' ht' hne; fin_cases ht' <;> simp_all)

/-! ## Terrain cache and fetch pipeline
(src/js/terrain-cache.js, src/js/terrain.js fetchTerrainGrid, src/js/config.js)

The IndexedDB store is modelled as an association list keyed by strings; the
storage substrate's failure modes are part of the environment:
`openFail` means `indexedDB.open` rejects, `txFail` means the store
transaction request itself errors.  Tile fetching is modelled as a total
oracle (`Env.tiles`); fetch failures are a separate error leg outside these
claims.  `Env.now` stands for `Date.now()`. -/

/-- A latitude/longitude pair. -/
structure LatLon where
  lat : ℝ
  lon : ℝ

/-- A southwest/northeast bounding box. -/
structure GeoBounds where
  sw : LatLon
  ne : LatLon

/-- Model of `BOUNDS` from src/js/config.js. -/
noncomputable def BOUNDS : GeoBounds :=
  ⟨⟨41.35, -111.82⟩, ⟨41.42, -111.73⟩⟩

/-- Model of `TERRAIN_ZOOM` from src/js/config.js. -/
def TERRAIN_ZOOM : ℕ := 14

/-- Model of `cacheKey()` from src/js/terrain-cache.js: the template literal
`BOUNDS.sw.lat,BOUNDS.sw.lon,BOUNDS.ne.lat,BOUNDS.ne.lon@zTERRAIN_ZOOM`
evaluated at the statically configured constants.  It takes no parameters in
the source, so it is a constant string here. -/
def cacheKey : String := "41.35,-111.82,41.42,-111.73@z14"

/-- A stored terrain record (the unread `metadata` payload is omitted). -/
structure CacheEntry where
  elevations : List ℝ
  aspectGrid : List (Option ℝ)
  width : ℕ
  height : ℕ
  timestamp : ℕ

/-- The keyed object store. -/
def CacheState := List (String × CacheEntry)

/-- Outcome mode of one storage interaction. -/
inductive OpMode where
  | ok
  | openFail
  | txFail
  deriving DecidableEq

/-- Environment of one terrain request. -/
structure Env where
  readMode : OpMode
  writeMode : OpMode
  tiles : ℤ → ℤ → List ℝ
  tileSize : ℕ
  now : ℕ

/-- Model of `loadTerrainFromCache` from src/js/terrain-cache.js.  The `try/catch`
wraps only the awaited `openDB()`; the read-transaction promise is returned
from inside `try` without being awaited there, so its rejection is *not*
caught and propagates to the caller (`txFail ↦ error`), while an `openDB`
failure is caught and becomes `null` (`openFail ↦ ok none`). -/
noncomputable def loadTerrainFromCache (env : Env) (st : CacheState) :
    Except Unit (Option CacheEntry) :=
  match env.readMode with
  | .ok => .ok (st.lookup cacheKey)
  | .openFail => .ok none
  | .txFail => .error ()

/-- Model of `saveTerrainToCache` from src/js/terrain-cache.js: no internal `try`, so
both failure modes reject; a failed transaction writes nothing. -/
noncomputable def saveTerrainToCache (env : Env) (st : CacheState)
    (entry : CacheEntry) : Except Unit CacheState :=
  match env.writeMode with
  | .ok => .ok ((cacheKey, entry) :: st)
  | .openFail => .error ()
  | .txFail => .error ()

/-- The record returned by `fetchTerrainGrid`. -/
structure TerrainResult where
  elevations : List ℝ
  aspectGrid : List (Option ℝ)
  width : ℕ
  height : ℕ
  bounds : GeoBounds

/-- The cache-miss path of `fetchTerrainGrid` (terrain.js lines 92–150):
tile range from the bounds corners, parallel tile fetch (oracle), stitch,
and aspect derivation with the halved @2x cell size. -/
noncomputable def computeTerrain (env : Env) (bounds : GeoBounds)
    (zoom : ℕ) : TerrainResult :=
  let swTile := lonLatToTile bounds.sw.lon bounds.sw.lat zoom
  let neTile := lonLatToTile bounds.ne.lon bounds.ne.lat zoom
  let minTx := min swTile.x neTile.x
  let maxTx := max swTile.x neTile.x
  let minTy := min swTile.y neTile.y
  let maxTy := max swTile.y neTile.y
  let cols := (maxTx - minTx + 1).toNat
  let rows := (maxTy - minTy + 1).toNat
  let tiles := (List.range rows).flatMap fun r =>
    (List.range cols).map fun c =>
      (⟨minTx + c, minTy + r, env.tiles (minTx + c) (minTy + r)⟩ : RawTile)
  let tileSize := env.tileSize
  let width := cols * tileSize
  let height := rows * tileSize
  let elevations := stitchTiles tiles minTx minTy cols rows tileSize
  let midLat := (bounds.sw.lat + bounds.ne.lat) / 2
  let effectiveCellSize := getCellSize zoom midLat / 2
  ⟨elevations,
   computeAspectGrid elevations width height effectiveCellSize,
   width, height, bounds⟩

/-- Model of `fetchTerrainGrid` from src/js/terrain.js: cache hit short-circuits;
otherwise compute, then attempt the cache write inside `try/catch` — a write
failure is only logged and the fresh result is returned anyway. -/
noncomputable def fetchTerrainGrid (env : Env) (st : CacheState)
    (bounds : GeoBounds) (zoom : ℕ) :
    Except Unit (TerrainResult × CacheState) :=
  match loadTerrainFromCache env st with
  | .error e => .error e
  | .ok (some cached) =>
    .ok (⟨cached.elevations, cached.aspectGrid, cached.width, cached.height,
      bounds⟩, st)
  | .ok none =>
    let result := computeTerrain env bounds zoom
    match saveTerrainToCache env st
      ⟨result.elevations, result.aspectGrid, result.width, result.height,
        env.now⟩ with
    | .ok st2 => .ok (result, st2)
    | .error _ => .ok (result, st)

/-- C6: when the cache write fails, `fetchTerrainGrid` still returns the
freshly computed grids for that request, the cache state is left unchanged,
and a subsequent fresh request for the same key recomputes from source tiles
rather than reading anything stale or partial. -/
theorem fetchTerrain_write_failure_returns_fresh (env : Env)
    (st : CacheState) (bounds : GeoBounds) (zoom : ℕ)
    (hw : env.writeMode ≠ OpMode.ok)
    (hmiss : loadTerrainFromCache env st = .ok none) :
    fetchTerrainGrid env st bounds zoom =
      .ok (computeTerrain env bounds zoom, st) ∧
    ∀ r st', fetchTerrainGrid env st bounds zoom = .ok (r, st') →
      fetchTerrainGrid env st' bounds zoom =
        .ok (computeTerrain env bounds zoom, st') := by
  have hsave : ∀ e, saveTerrainToCache env st e = .error () := by
    intro e
    unfold saveTerrainToCache
    rcases hwm : env.writeMode with _ | _ | _
    · exact absurd hwm hw
    · rfl
    · rfl
  have h1 : fetchTerrainGrid env st bounds zoom =
      .ok (computeTerrain env bounds zoom, st) := by
    unfold fetchTerrainGrid
    rw [hmiss]
    simp only
    rw [hsave]
  refine ⟨h1, fun r st' h => ?_⟩
  rw [h1] at h
  have hst : st' = st := by
    injection h with h'
    exact (congrArg Prod.snd h').symm
  rw [hst]
  exact h1

/-- C6 witness: write transaction failing over an empty cache. -/
theorem fetchTerrain_write_failure_returns_fresh_witness :
    (OpMode.txFail ≠ OpMode.ok ∧
      loadTerrainFromCache ⟨OpMode.ok, OpMode.txFail, fun _ _ => [], 0, 0⟩ [] =
        .ok none) ∧
    fetchTerrainGrid ⟨OpMode.ok, OpMode.txFail, fun _ _ => [], 0, 0⟩ []
        BOUNDS TERRAIN_ZOOM =
      .ok (computeTerrain ⟨OpMode.ok, OpMode.txFail, fun _ _ => [], 0, 0⟩
        BOUNDS TERRAIN_ZOOM, []) :=
  ⟨⟨by decide, rfl⟩,
   (fetchTerrain_write_failure_returns_fresh
     ⟨OpMode.ok, OpMode.txFail, fun _ _ => [], 0, 0⟩ [] BOUNDS TERRAIN_ZOOM
     (by decide) rfl).1⟩

/-- C7 counterexample: with the storage substrate reachable but the read
transaction erroring, `fetchTerrainGrid` does not treat the failure as a
miss — the rejection escapes `loadTerrainFromCache`'s `try/catch` (the inner
promise is returned without `await`) and escalates to the caller as an
error, contradicting the claim that a read-transaction failure is handled
like a cache miss and never escalated. -/
theorem fetchTerrain_read_tx_error_escalates :
    fetchTerrainGrid ⟨OpMode.txFail, OpMode.ok, fun _ _ => [], 0, 0⟩ []
      BOUNDS TERRAIN_ZOOM = .error () := rfl

/-- C7 (amended): a cache read failure in *opening* the storage substrate is
treated identically to a miss — `loadTerrainFromCache` yields the absent
value, nothing is escalated, and the pipeline proceeds to fetch, stitch and
derive exactly as on a miss; a read-transaction error, by contrast,
propagates to the caller (see the counterexample). -/
theorem fetchTerrain_openFail_as_miss (env : Env) (st : CacheState)
    (bounds : GeoBounds) (zoom : ℕ)
    (hr : env.readMode = OpMode.openFail) :
    loadTerrainFromCache env st = .ok none ∧
    ∃ st', fetchTerrainGrid env st bounds zoom =
      .ok (computeTerrain env bounds zoom, st') := by
  have hload : loadTerrainFromCache env st = .ok none := by
    unfold loadTerrainFromCache
    rw [hr]
  refine ⟨hload, ?_⟩
  unfold fetchTerrainGrid
  rw [hload]
  simp only
  cases hsv : saveTerrainToCache env st
    ⟨(computeTerrain env bounds zoom).elevations,
      (computeTerrain env bounds zoom).aspectGrid,
      (computeTerrain env bounds zoom).width,
      (computeTerrain env bounds zoom).height, env.now⟩ with
  | error u => exact ⟨st, rfl⟩
  | ok st2 => exact ⟨st2, rfl⟩

/-- C7 witness for the amended theorem: storage unavailable, empty cache. -/
theorem fetchTerrain_openFail_as_miss_witness :
    loadTerrainFromCache ⟨OpMode.openFail, OpMode.ok, fun _ _ => [], 0, 0⟩ [] =
      .ok none ∧
    ∃ st', fetchTerrainGrid ⟨OpMode.openFail, OpMode.ok, fun _ _ => [], 0, 0⟩
        [] BOUNDS TERRAIN_ZOOM =
      .ok (computeTerrain ⟨OpMode.openFail, OpMode.ok, fun _ _ => [], 0, 0⟩
        BOUNDS TERRAIN_ZOOM, st') :=
  fetchTerrain_openFail_as_miss
    ⟨OpMode.openFail, OpMode.ok, fun _ _ => [], 0, 0⟩ [] BOUNDS TERRAIN_ZOOM
    rfl

/-- C10: the cache key is a constant built from the configured `BOUNDS` and
`TERRAIN_ZOOM` and ignores the bounds/zoom arguments of `fetchTerrainGrid`,
so requests naming different regions or zooms consult the same entry: a
cached grid is returned unchanged for both, only the echoed `bounds` field
differing. -/
theorem cacheKey_ignores_bounds (env : Env) (st : CacheState)
    (b1 b2 : GeoBounds) (z1 z2 : ℕ) (E : CacheEntry)
    (hr : env.readMode = OpMode.ok)
    (hE : st.lookup cacheKey = some E) :
    fetchTerrainGrid env st b1 z1 =
      .ok (⟨E.elevations, E.aspectGrid, E.width, E.height, b1⟩, st) ∧
    fetchTerrainGrid env st b2 z2 =
      .ok (⟨E.elevations, E.aspectGrid, E.width, E.height, b2⟩, st) := by
  have hload : loadTerrainFromCache env st = .ok (some E) := by
    unfold loadTerrainFromCache
    rw [hr, hE]
  constructor <;> (unfold fetchTerrainGrid; rw [hload])

/-- C10 witness: the same cached entry answers two different regions. -/
theorem cacheKey_ignores_bounds_witness :
    List.lookup cacheKey [(cacheKey, (⟨[], [], 0, 0, 0⟩ : CacheEntry))] =
      some (⟨[], [], 0, 0, 0⟩ : CacheEntry) ∧
    (fetchTerrainGrid ⟨OpMode.ok, OpMode.ok, fun _ _ => [], 0, 0⟩
        [(cacheKey, ⟨[], [], 0, 0, 0⟩)] BOUNDS TERRAIN_ZOOM =
      .ok (⟨[], [], 0, 0, BOUNDS⟩, [(cacheKey, ⟨[], [], 0, 0, 0⟩)]) ∧
     fetchTerrainGrid ⟨OpMode.ok, OpMode.ok, fun _ _ => [], 0, 0⟩
        [(cacheKey, ⟨[], [], 0, 0, 0⟩)] ⟨⟨0, 0⟩, ⟨1, 1⟩⟩ 10 =
      .ok (⟨[], [], 0, 0, ⟨⟨0, 0⟩, ⟨1, 1⟩⟩⟩,
        [(cacheKey, ⟨[], [], 0, 0, 0⟩)])) :=
  ⟨List.lookup_cons_self,
   cacheKey_ignores_bounds ⟨OpMode.ok, OpMode.ok, fun _ _ => [], 0, 0⟩
     [(cacheKey, ⟨[], [], 0, 0, 0⟩)] BOUNDS ⟨⟨0, 0⟩, ⟨1, 1⟩⟩ TERRAIN_ZOOM 10
     ⟨[], [], 0, 0, 0⟩ rfl List.lookup_cons_self⟩

end PowderMap
